import Mathlib

/-!
Verification of the circle trajectory evaluator
(`pegasus_autopilot/static_trajectories/src/circle.cpp`, namespace `autopilot`).

The C++ code works on `Eigen::Vector3d` / `Eigen::Matrix3d` over `double`;
we embed it over the reals, with vectors as `Fin 3 → ℝ` and matrices as
`Matrix (Fin 3) (Fin 3) ℝ`.  `Eigen`'s `v.normalized()` divides by `v.norm()`;
for the zero vector the C++ result is a NaN vector while real division by
zero in Lean yields the zero vector — both are junk values, and the
degeneracy facts proved below (a zero-norm vector being normalized, the
resulting rotation not being orthonormal) hold for the embedded junk value.
Every real number is finite, so `std::isfinite` is constantly `true` here.
-/

noncomputable section

open Matrix

namespace autopilot

/-- Dot product of two 3-vectors, `a.dot(b)` in Eigen. -/
def dot3 (a b : Fin 3 → ℝ) : ℝ := a ⬝ᵥ b

/-- Cross product, `a.cross(b)` in Eigen. -/
def cross3 (a b : Fin 3 → ℝ) : Fin 3 → ℝ :=
  ![a 1 * b 2 - a 2 * b 1, a 2 * b 0 - a 0 * b 2, a 0 * b 1 - a 1 * b 0]

/-- Euclidean norm, `v.norm()` in Eigen. -/
def norm3 (v : Fin 3 → ℝ) : ℝ := Real.sqrt (dot3 v v)

/-- `v.normalized()` in Eigen: `v / v.norm()`.  For `v = 0` the C++ value is a
NaN vector; here `1 / 0 = 0` gives the zero vector (a junk value either way). -/
def normalized (v : Fin 3 → ℝ) : Fin 3 → ℝ := (1 / norm3 v) • v

/-- `Eigen::Vector3d base_normal(0.0, 0.0, 1.0)` in the constructor. -/
def base_normal : Fin 3 → ℝ := ![0, 0, 1]

/-- `normal_.array().abs()`: elementwise absolute value. -/
def vabs (v : Fin 3 → ℝ) : Fin 3 → ℝ := fun i => |v i|

/-- The `Circle` object's state after construction: the four stored
constructor parameters plus the derived rotation matrix. -/
structure Circle where
  vehicle_speed : ℝ
  center : Fin 3 → ℝ
  normal : Fin 3 → ℝ
  radius : ℝ
  rotation : Matrix (Fin 3) (Fin 3) ℝ

/-- `u3 = normal_.normalized()` in the constructor's general branch. -/
def circleU3 (normal : Fin 3 → ℝ) : Fin 3 → ℝ := normalized normal

/-- `u1 = (u3.cross(base_normal)).normalized()`. -/
def circleU1 (normal : Fin 3 → ℝ) : Fin 3 → ℝ :=
  normalized (cross3 (circleU3 normal) base_normal)

/-- `u2 = (u3.cross(u1)).normalized()`. -/
def circleU2 (normal : Fin 3 → ℝ) : Fin 3 → ℝ :=
  normalized (cross3 (circleU3 normal) (circleU1 normal))

/-- The rotation matrix assigned in the general branch: row 0 is `u1`,
row 1 is `u2`, row 2 is `u3` (the loops `rotation_(0,i) = u1(i)` etc.). -/
def circleRotation (normal : Fin 3 → ℝ) : Matrix (Fin 3) (Fin 3) ℝ :=
  Matrix.of ![circleU1 normal, circleU2 normal, circleU3 normal]

/-- The constructor `Circle::Circle(center, normal, radius, vehicle_speed)`.

The branch condition is `(absolute_normal - base_normal).norm() > 0.0001`
with `absolute_normal = normal_.array().abs()`; when it holds the rotation
is built from `u1, u2, u3`, otherwise `rotation_` keeps its initial value.

Modelled from the spec: the member `rotation_`'s initial value comes from the
header `static_trajectories/circle.hpp`, which is not part of the reviewed
sources; per the spec ("Else ...: leave `rotation` as the identity matrix"),
it is the identity matrix. -/
def mkCircle (center normal : Fin 3 → ℝ) (radius vehicle_speed : ℝ) : Circle :=
  ⟨vehicle_speed, center, normal, radius,
    if norm3 (vabs normal - base_normal) > 0.0001 then circleRotation normal else 1⟩

/-- `Circle::pd(gamma)`: the canonical-plane point
`(radius cos(2πγ), radius sin(2πγ), 0)`, rotated, then offset by the center. -/
def pd (c : Circle) (gamma : ℝ) : Fin 3 → ℝ :=
  c.rotation.mulVec
    ![c.radius * Real.cos (gamma * 2 * Real.pi),
      c.radius * Real.sin (gamma * 2 * Real.pi), 0] + c.center

/-- `Circle::d_pd(gamma)`: first derivative with respect to `gamma`, rotated. -/
def d_pd (c : Circle) (gamma : ℝ) : Fin 3 → ℝ :=
  c.rotation.mulVec
    ![-c.radius * 2 * Real.pi * Real.sin (gamma * 2 * Real.pi),
      c.radius * 2 * Real.pi * Real.cos (gamma * 2 * Real.pi), 0]

/-- `Circle::d2_pd(gamma)`: second derivative, rotated. -/
def d2_pd (c : Circle) (gamma : ℝ) : Fin 3 → ℝ :=
  c.rotation.mulVec
    ![-c.radius * (2 * Real.pi) ^ 2 * Real.cos (gamma * 2 * Real.pi),
      -c.radius * (2 * Real.pi) ^ 2 * Real.sin (gamma * 2 * Real.pi), 0]

/-- `Circle::d3_pd(gamma)`: third derivative, rotated. -/
def d3_pd (c : Circle) (gamma : ℝ) : Fin 3 → ℝ :=
  c.rotation.mulVec
    ![c.radius * (2 * Real.pi) ^ 3 * Real.sin (gamma * 2 * Real.pi),
      -c.radius * (2 * Real.pi) ^ 3 * Real.cos (gamma * 2 * Real.pi), 0]

/-- `std::isfinite` on a real number: every real is finite (doubles'
infinities and NaN have no counterpart in ℝ), so the non-finite fallback
branch of `vd` is unreachable in this embedding.  Consequently the embedding
of `vd` is faithful to the double-precision program only on circles whose
rotation matrix is free of NaNs — i.e. when the supplied normal has a
nonzero x or y component, or falls within the degeneracy tolerance of the
constructor's guard; for degenerate z-axis normals outside the tolerance the
C++ rotation is NaN, `d_pd(gamma).norm()` is NaN even at radius 0, the
`derivative_norm != 0` guard passes, and the C++ fallback yields `1e-8`. -/
def isfinite (_ : ℝ) : Bool := true

/-- `Circle::vd(gamma)`: starts at `0.0`; divides `vehicle_speed_` by the
derivative norm only when that norm is nonzero; replaces a non-finite result
by `0.00000001`.  (Statements about the fallback path are restricted to
NaN-free rotations; see `isfinite`.) -/
def vd (c : Circle) (gamma : ℝ) : ℝ :=
  let derivative_norm := norm3 (d_pd c gamma)
  let v := if derivative_norm ≠ 0 then c.vehicle_speed / derivative_norm else 0
  if isfinite v then v else 0.00000001

/-- A 3×3 matrix whose three rows are mutually orthogonal unit vectors:
`m * mᵀ = 1` states exactly that the `(i,j)` dot product of rows is `δᵢⱼ`. -/
def rowsOrthonormal (m : Matrix (Fin 3) (Fin 3) ℝ) : Prop := m * mᵀ = 1

/-! ### Basic component and algebra lemmas -/

lemma dot3_expand (a b : Fin 3 → ℝ) :
    dot3 a b = a 0 * b 0 + a 1 * b 1 + a 2 * b 2 := by
  simp [dot3, dotProduct, Fin.sum_univ_three]

lemma dot3_self_nonneg (v : Fin 3 → ℝ) : 0 ≤ dot3 v v := by
  rw [dot3_expand]
  nlinarith [sq_nonneg (v 0), sq_nonneg (v 1), sq_nonneg (v 2)]

lemma norm3_sq (v : Fin 3 → ℝ) : norm3 v ^ 2 = dot3 v v :=
  Real.sq_sqrt (dot3_self_nonneg v)

lemma cross3_apply (a b : Fin 3 → ℝ) :
    cross3 a b 0 = a 1 * b 2 - a 2 * b 1 ∧
    cross3 a b 1 = a 2 * b 0 - a 0 * b 2 ∧
    cross3 a b 2 = a 0 * b 1 - a 1 * b 0 := by
  refine ⟨?_, ?_, ?_⟩ <;> simp [cross3]

lemma normalized_apply (v : Fin 3 → ℝ) (i : Fin 3) :
    normalized v i = (1 / norm3 v) * v i := by
  simp [normalized]

/-- Lagrange's identity for the cross product. -/
lemma cross3_dot_self (a b : Fin 3 → ℝ) :
    dot3 (cross3 a b) (cross3 a b) = dot3 a a * dot3 b b - dot3 a b ^ 2 := by
  obtain ⟨h0, h1, h2⟩ := cross3_apply a b
  rw [dot3_expand, dot3_expand, dot3_expand, dot3_expand, h0, h1, h2]; ring

lemma cross3_dot_left (a b : Fin 3 → ℝ) : dot3 (cross3 a b) a = 0 := by
  obtain ⟨h0, h1, h2⟩ := cross3_apply a b
  rw [dot3_expand, h0, h1, h2]; ring

lemma cross3_dot_right (a b : Fin 3 → ℝ) : dot3 (cross3 a b) b = 0 := by
  obtain ⟨h0, h1, h2⟩ := cross3_apply a b
  rw [dot3_expand, h0, h1, h2]; ring

lemma dot3_comm (a b : Fin 3 → ℝ) : dot3 a b = dot3 b a := by
  rw [dot3_expand, dot3_expand]; ring

lemma dot3_normalized_left (v w : Fin 3 → ℝ) :
    dot3 (normalized v) w = (1 / norm3 v) * dot3 v w := by
  rw [dot3_expand, dot3_expand, normalized_apply, normalized_apply,
    normalized_apply]
  ring

lemma dot3_normalized_right (v w : Fin 3 → ℝ) :
    dot3 w (normalized v) = (1 / norm3 v) * dot3 w v := by
  rw [dot3_comm, dot3_normalized_left, dot3_comm w v]

/-- Normalizing a vector with nonzero self-dot yields a unit vector. -/
lemma normalized_dot_self (v : Fin 3 → ℝ) (h : dot3 v v ≠ 0) :
    dot3 (normalized v) (normalized v) = 1 := by
  rw [dot3_normalized_left, dot3_normalized_right]
  have hs : norm3 v ^ 2 = dot3 v v := norm3_sq v
  have hn : norm3 v ≠ 0 := by
    intro h0
    rw [h0] at hs
    exact h (by linarith [hs.symm] )
  field_simp
  linarith [hs]

lemma mulVec_apply (m : Matrix (Fin 3) (Fin 3) ℝ) (a : Fin 3 → ℝ) (i : Fin 3) :
    m.mulVec a i = m i 0 * a 0 + m i 1 * a 1 + m i 2 * a 2 := by
  simp [Matrix.mulVec, dotProduct, Fin.sum_univ_three]

lemma of_rows_apply (u v w : Fin 3 → ℝ) :
    (Matrix.of ![u, v, w]) 0 = u ∧ (Matrix.of ![u, v, w]) 1 = v ∧
    (Matrix.of ![u, v, w]) 2 = w := by
  refine ⟨rfl, rfl, rfl⟩

/-- A matrix whose three rows are pairwise orthogonal unit vectors satisfies
`m * mᵀ = 1`. -/
lemma rowsOrthonormal_of (u v w : Fin 3 → ℝ)
    (huu : dot3 u u = 1) (hvv : dot3 v v = 1) (hww : dot3 w w = 1)
    (huv : dot3 u v = 0) (huw : dot3 u w = 0) (hvw : dot3 v w = 0) :
    rowsOrthonormal (Matrix.of ![u, v, w]) := by
  have hvu : dot3 v u = 0 := by rw [dot3_comm]; exact huv
  have hwu : dot3 w u = 0 := by rw [dot3_comm]; exact huw
  have hwv : dot3 w v = 0 := by rw [dot3_comm]; exact hvw
  unfold rowsOrthonormal
  ext i j
  have key : (Matrix.of ![u, v, w] * (Matrix.of ![u, v, w])ᵀ) i j
      = dot3 (![u, v, w] i) (![u, v, w] j) := by
    rw [Matrix.mul_apply]
    rfl
  rw [key]
  fin_cases i <;> fin_cases j <;> simp [Matrix.one_apply] <;>
    first
    | exact huu | exact hvv | exact hww
    | exact huv | exact huw | exact hvw
    | exact hvu | exact hwu | exact hwv

/-- Multiplication by a matrix with orthonormal rows preserves dot products
(`m * mᵀ = 1` implies `mᵀ * m = 1` for square matrices). -/
lemma dot3_mulVec_orthonormal (m : Matrix (Fin 3) (Fin 3) ℝ)
    (h : rowsOrthonormal m) (a b : Fin 3 → ℝ) :
    dot3 (m.mulVec a) (m.mulVec b) = dot3 a b := by
  have h' : mᵀ * m = 1 := Matrix.mul_eq_one_comm.mp h
  have e : ∀ i j : Fin 3, m 0 i * m 0 j + m 1 i * m 1 j + m 2 i * m 2 j
      = if i = j then 1 else 0 := by
    intro i j
    have h2 := congrFun (congrFun h' i) j
    simpa [Matrix.mul_apply, Fin.sum_univ_three, Matrix.one_apply,
      Matrix.transpose_apply, mul_comm] using h2
  have e00 : m 0 0 * m 0 0 + m 1 0 * m 1 0 + m 2 0 * m 2 0 = 1 := by
    simpa using e 0 0
  have e11 : m 0 1 * m 0 1 + m 1 1 * m 1 1 + m 2 1 * m 2 1 = 1 := by
    simpa using e 1 1
  have e22 : m 0 2 * m 0 2 + m 1 2 * m 1 2 + m 2 2 * m 2 2 = 1 := by
    simpa using e 2 2
  have e01 : m 0 0 * m 0 1 + m 1 0 * m 1 1 + m 2 0 * m 2 1 = 0 := by
    simpa [show (0 : Fin 3) ≠ 1 from by decide] using e 0 1
  have e02 : m 0 0 * m 0 2 + m 1 0 * m 1 2 + m 2 0 * m 2 2 = 0 := by
    simpa [show (0 : Fin 3) ≠ 2 from by decide] using e 0 2
  have e10 : m 0 1 * m 0 0 + m 1 1 * m 1 0 + m 2 1 * m 2 0 = 0 := by
    simpa [show (1 : Fin 3) ≠ 0 from by decide] using e 1 0
  have e12 : m 0 1 * m 0 2 + m 1 1 * m 1 2 + m 2 1 * m 2 2 = 0 := by
    simpa [show (1 : Fin 3) ≠ 2 from by decide] using e 1 2
  have e20 : m 0 2 * m 0 0 + m 1 2 * m 1 0 + m 2 2 * m 2 0 = 0 := by
    simpa [show (2 : Fin 3) ≠ 0 from by decide] using e 2 0
  have e21 : m 0 2 * m 0 1 + m 1 2 * m 1 1 + m 2 2 * m 2 1 = 0 := by
    simpa [show (2 : Fin 3) ≠ 1 from by decide] using e 2 1
  rw [dot3_expand, dot3_expand, mulVec_apply, mulVec_apply, mulVec_apply,
    mulVec_apply, mulVec_apply, mulVec_apply]
  linear_combination (a 0 * b 0) * e00 + (a 0 * b 1) * e01 + (a 0 * b 2) * e02
    + (a 1 * b 0) * e10 + (a 1 * b 1) * e11 + (a 1 * b 2) * e12
    + (a 2 * b 0) * e20 + (a 2 * b 1) * e21 + (a 2 * b 2) * e22

lemma base_normal_dot : dot3 base_normal base_normal = 1 := by
  rw [dot3_expand]; norm_num [base_normal]

lemma dot3_base_normal (v : Fin 3 → ℝ) : dot3 v base_normal = v 2 := by
  rw [dot3_expand]; norm_num [base_normal]

/-- In the constructor's general branch, whenever the supplied normal has a
nonzero component in the canonical plane, the rows `u1, u2, u3` form an
orthonormal frame. -/
lemma circleRotation_orthonormal (n : Fin 3 → ℝ) (h : n 0 ≠ 0 ∨ n 1 ≠ 0) :
    rowsOrthonormal (circleRotation n) := by
  have hd : 0 < dot3 n n := by
    rw [dot3_expand]
    rcases h with h | h
    · nlinarith [mul_self_pos.mpr h, mul_self_nonneg (n 1), mul_self_nonneg (n 2)]
    · nlinarith [mul_self_pos.mpr h, mul_self_nonneg (n 0), mul_self_nonneg (n 2)]
  have hNpos : 0 < norm3 n := Real.sqrt_pos.mpr hd
  have hu3 : dot3 (circleU3 n) (circleU3 n) = 1 := normalized_dot_self n hd.ne'
  have h01 : circleU3 n 0 ≠ 0 ∨ circleU3 n 1 ≠ 0 := by
    rcases h with h | h
    · left
      have ha : circleU3 n 0 = (1 / norm3 n) * n 0 := normalized_apply n 0
      rw [ha]
      exact mul_ne_zero (one_div_ne_zero hNpos.ne') h
    · right
      have ha : circleU3 n 1 = (1 / norm3 n) * n 1 := normalized_apply n 1
      rw [ha]
      exact mul_ne_zero (one_div_ne_zero hNpos.ne') h
  have hu3e : circleU3 n 0 * circleU3 n 0 + circleU3 n 1 * circleU3 n 1
      + circleU3 n 2 * circleU3 n 2 = 1 := by
    rw [← dot3_expand]; exact hu3
  have hz : circleU3 n 2 ^ 2 < 1 := by
    rcases h01 with h01 | h01
    · nlinarith [mul_self_pos.mpr h01, mul_self_nonneg (circleU3 n 1)]
    · nlinarith [mul_self_pos.mpr h01, mul_self_nonneg (circleU3 n 0)]
  have hw1 : dot3 (cross3 (circleU3 n) base_normal) (cross3 (circleU3 n) base_normal)
      = 1 - circleU3 n 2 ^ 2 := by
    rw [cross3_dot_self, hu3, base_normal_dot, dot3_base_normal]; ring
  have hw1pos : 0 < dot3 (cross3 (circleU3 n) base_normal) (cross3 (circleU3 n) base_normal) := by
    rw [hw1]; linarith
  have hu1 : dot3 (circleU1 n) (circleU1 n) = 1 :=
    normalized_dot_self (cross3 (circleU3 n) base_normal) hw1pos.ne'
  have hu3u1 : dot3 (circleU3 n) (circleU1 n) = 0 := by
    show dot3 (circleU3 n) (normalized (cross3 (circleU3 n) base_normal)) = 0
    rw [dot3_normalized_right]
    have hc : dot3 (circleU3 n) (cross3 (circleU3 n) base_normal) = 0 := by
      rw [dot3_comm]; exact cross3_dot_left _ _
    rw [hc, mul_zero]
  have hw2 : dot3 (cross3 (circleU3 n) (circleU1 n)) (cross3 (circleU3 n) (circleU1 n)) = 1 := by
    rw [cross3_dot_self, hu3, hu1, hu3u1]; ring
  have hu2 : dot3 (circleU2 n) (circleU2 n) = 1 :=
    normalized_dot_self (cross3 (circleU3 n) (circleU1 n)) (by rw [hw2]; norm_num)
  have hu1u2 : dot3 (circleU1 n) (circleU2 n) = 0 := by
    show dot3 (circleU1 n) (normalized (cross3 (circleU3 n) (circleU1 n))) = 0
    rw [dot3_normalized_right]
    have hc : dot3 (circleU1 n) (cross3 (circleU3 n) (circleU1 n)) = 0 := by
      rw [dot3_comm]; exact cross3_dot_right _ _
    rw [hc, mul_zero]
  have hu2u3 : dot3 (circleU2 n) (circleU3 n) = 0 := by
    show dot3 (normalized (cross3 (circleU3 n) (circleU1 n))) (circleU3 n) = 0
    rw [dot3_normalized_left, cross3_dot_left, mul_zero]
  exact rowsOrthonormal_of _ _ _ hu1 hu2 hu3 hu1u2
    (by rw [dot3_comm]; exact hu3u1) hu2u3

lemma rowsOrthonormal_one : rowsOrthonormal (1 : Matrix (Fin 3) (Fin 3) ℝ) := by
  unfold rowsOrthonormal
  rw [Matrix.transpose_one, Matrix.mul_one]

lemma mkCircle_rotation (center n : Fin 3 → ℝ) (r s : ℝ) :
    (mkCircle center n r s).rotation =
      if norm3 (vabs n - base_normal) > 0.0001 then circleRotation n else 1 := rfl

lemma mkCircle_center (center n : Fin 3 → ℝ) (r s : ℝ) :
    (mkCircle center n r s).center = center := rfl

lemma mkCircle_radius (center n : Fin 3 → ℝ) (r s : ℝ) :
    (mkCircle center n r s).radius = r := rfl

lemma mkCircle_vehicle_speed (center n : Fin 3 → ℝ) (r s : ℝ) :
    (mkCircle center n r s).vehicle_speed = s := rfl

lemma dot3_zero_left (a : Fin 3 → ℝ) : dot3 (fun _ => 0) a = 0 := by
  rw [dot3_expand]; ring

lemma norm3_zero_fun : norm3 (fun _ => (0 : ℝ)) = 0 := by
  unfold norm3
  rw [dot3_zero_left, Real.sqrt_zero]

lemma circleU3_z_axis (n : Fin 3 → ℝ) (h0 : n 0 = 0) (h1 : n 1 = 0) :
    circleU3 n 0 = 0 ∧ circleU3 n 1 = 0 := by
  constructor
  · show normalized n 0 = 0
    rw [normalized_apply, h0, mul_zero]
  · show normalized n 1 = 0
    rw [normalized_apply, h1, mul_zero]

/-- When the supplied normal lies on the z-axis, the cross product `u3 × base`
computed by the general branch is the zero vector, so its normalization
divides by a zero norm. -/
lemma cross3_u3_base_z_axis (n : Fin 3 → ℝ) (h0 : n 0 = 0) (h1 : n 1 = 0) :
    cross3 (circleU3 n) base_normal = fun _ => 0 := by
  obtain ⟨z0, z1⟩ := circleU3_z_axis n h0 h1
  funext i
  fin_cases i <;> simp [cross3, base_normal, z0, z1]

lemma circleU1_z_axis (n : Fin 3 → ℝ) (h0 : n 0 = 0) (h1 : n 1 = 0) :
    circleU1 n = fun _ => 0 := by
  have hc := cross3_u3_base_z_axis n h0 h1
  show normalized (cross3 (circleU3 n) base_normal) = fun _ => 0
  rw [hc]
  funext i
  rw [normalized_apply]
  simp

lemma circleU2_z_axis (n : Fin 3 → ℝ) (h0 : n 0 = 0) (h1 : n 1 = 0) :
    circleU2 n = fun _ => 0 := by
  have e1 := circleU1_z_axis n h0 h1
  show normalized (cross3 (circleU3 n) (circleU1 n)) = fun _ => 0
  rw [e1]
  have hc : cross3 (circleU3 n) (fun _ => 0) = fun _ => 0 := by
    funext i
    fin_cases i <;> simp [cross3]
  rw [hc]
  funext i
  rw [normalized_apply]
  simp

lemma circleRotation_mulVec (n a : Fin 3 → ℝ) :
    (circleRotation n).mulVec a =
      ![dot3 (circleU1 n) a, dot3 (circleU2 n) a, dot3 (circleU3 n) a] := by
  funext i
  rw [mulVec_apply]
  fin_cases i <;> simp [circleRotation, dot3_expand]

/-- In the general branch, the image under the rotation of two orthogonal
vectors of the canonical plane stays orthogonal, for every supplied normal
(including the degenerate ones, whose junk rotation sends the canonical
plane to rows of zeros). -/
lemma mulVec_rotation_dot_zero (n a b : Fin 3 → ℝ)
    (ha : a 2 = 0) (_hb : b 2 = 0) (hab : dot3 a b = 0) :
    dot3 ((circleRotation n).mulVec a) ((circleRotation n).mulVec b) = 0 := by
  by_cases hz : n 0 = 0 ∧ n 1 = 0
  · obtain ⟨h0, h1⟩ := hz
    obtain ⟨z0, z1⟩ := circleU3_z_axis n h0 h1
    have e1 := circleU1_z_axis n h0 h1
    have e2 := circleU2_z_axis n h0 h1
    have d3a : dot3 (circleU3 n) a = 0 := by
      rw [dot3_expand, z0, z1, ha]; ring
    rw [circleRotation_mulVec, circleRotation_mulVec, e1, e2, dot3_expand]
    simp [dot3_zero_left, d3a]
  · have h' : n 0 ≠ 0 ∨ n 1 ≠ 0 := by
      rcases not_and_or.mp hz with h' | h'
      · exact Or.inl h'
      · exact Or.inr h'
    rw [dot3_mulVec_orthonormal _ (circleRotation_orthonormal n h') a b]
    exact hab

/-- The dot product of the images of two orthogonal canonical-plane vectors
under a constructed circle's rotation is zero, whichever branch built it. -/
lemma mkCircle_dot_zero (center n : Fin 3 → ℝ) (r s : ℝ) (a b : Fin 3 → ℝ)
    (ha : a 2 = 0) (hb : b 2 = 0) (hab : dot3 a b = 0) :
    dot3 ((mkCircle center n r s).rotation.mulVec a)
      ((mkCircle center n r s).rotation.mulVec b) = 0 := by
  rw [mkCircle_rotation]
  split_ifs with hc
  · exact mulVec_rotation_dot_zero n a b ha hb hab
  · rw [Matrix.one_mulVec, Matrix.one_mulVec]
    exact hab

lemma pd_sub_center (c : Circle) (gamma : ℝ) :
    pd c gamma - c.center = c.rotation.mulVec
      ![c.radius * Real.cos (gamma * 2 * Real.pi),
        c.radius * Real.sin (gamma * 2 * Real.pi), 0] := by
  simp only [pd]
  exact add_sub_cancel_right _ _

lemma norm3_mulVec_orthonormal (m : Matrix (Fin 3) (Fin 3) ℝ)
    (h : rowsOrthonormal m) (a : Fin 3 → ℝ) : norm3 (m.mulVec a) = norm3 a := by
  unfold norm3
  rw [dot3_mulVec_orthonormal m h]

lemma cons_val_last3 (a b c : ℝ) : ![a, b, c] 2 = c := rfl

lemma dot3_canonical_pos (r t : ℝ) :
    dot3 ![r * Real.cos t, r * Real.sin t, 0]
      ![r * Real.cos t, r * Real.sin t, 0] = r ^ 2 := by
  rw [dot3_expand]
  simp only [Matrix.cons_val_zero, Matrix.cons_val_one, Matrix.head_cons,
    cons_val_last3]
  have hsc := Real.sin_sq_add_cos_sq t
  nlinarith [hsc]

lemma norm3_canonical_pos (r t : ℝ) :
    norm3 ![r * Real.cos t, r * Real.sin t, 0] = |r| := by
  unfold norm3
  rw [dot3_canonical_pos]
  exact Real.sqrt_sq_eq_abs r

lemma dot3_canonical_vel (r t : ℝ) :
    dot3 ![-r * 2 * Real.pi * Real.sin t, r * 2 * Real.pi * Real.cos t, 0]
      ![-r * 2 * Real.pi * Real.sin t, r * 2 * Real.pi * Real.cos t, 0]
      = (2 * Real.pi * r) ^ 2 := by
  rw [dot3_expand]
  simp only [Matrix.cons_val_zero, Matrix.cons_val_one, Matrix.head_cons,
    cons_val_last3]
  have hsc := Real.sin_sq_add_cos_sq t
  nlinarith [hsc]

lemma norm3_canonical_vel (r t : ℝ) :
    norm3 ![-r * 2 * Real.pi * Real.sin t, r * 2 * Real.pi * Real.cos t, 0]
      = 2 * Real.pi * |r| := by
  unfold norm3
  rw [dot3_canonical_vel, Real.sqrt_sq_eq_abs, abs_mul, abs_of_pos Real.two_pi_pos]

/-- With an orthonormal rotation, the distance from the evaluated position to
the stored center is the absolute value of the stored radius. -/
lemma pd_dist (center n : Fin 3 → ℝ) (r s gamma : ℝ)
    (h : rowsOrthonormal (mkCircle center n r s).rotation) :
    norm3 (pd (mkCircle center n r s) gamma - center) = |r| := by
  have hsub := pd_sub_center (mkCircle center n r s) gamma
  rw [mkCircle_center] at hsub
  rw [hsub, norm3_mulVec_orthonormal _ h, mkCircle_radius, norm3_canonical_pos]

/-- With an orthonormal rotation, the velocity magnitude is `2π` times the
absolute value of the stored radius. -/
lemma d_pd_norm (center n : Fin 3 → ℝ) (r s gamma : ℝ)
    (h : rowsOrthonormal (mkCircle center n r s).rotation) :
    norm3 (d_pd (mkCircle center n r s) gamma) = 2 * Real.pi * |r| := by
  simp only [d_pd, mkCircle_radius]
  rw [norm3_mulVec_orthonormal _ h, norm3_canonical_vel]

lemma norm3_zero : norm3 (0 : Fin 3 → ℝ) = 0 := by
  unfold norm3
  rw [dot3_expand]
  simp

lemma sub_vabs_e3 : vabs ![(0:ℝ), 0, 1] - base_normal = fun _ => 0 := by
  funext i
  fin_cases i <;> norm_num [vabs, base_normal]

lemma norm3_vabs_e3 : norm3 (vabs ![(0:ℝ), 0, 1] - base_normal) = 0 := by
  rw [sub_vabs_e3, norm3_zero_fun]

lemma mkCircle_rotation_e3 (center : Fin 3 → ℝ) (r s : ℝ) :
    (mkCircle center ![0, 0, 1] r s).rotation = 1 := by
  rw [mkCircle_rotation, if_neg]
  rw [norm3_vabs_e3]
  norm_num

lemma norm3_vabs_zz2 : norm3 (vabs ![(0:ℝ), 0, 2] - base_normal) = 1 := by
  have h : vabs ![(0:ℝ), 0, 2] - base_normal = ![0, 0, 1] := by
    funext i
    fin_cases i <;> norm_num [vabs, base_normal]
  rw [h]
  unfold norm3
  rw [dot3_expand]
  norm_num

lemma mkCircle_rotation_zz2 (center : Fin 3 → ℝ) (r s : ℝ) :
    (mkCircle center ![0, 0, 2] r s).rotation = circleRotation ![0, 0, 2] := by
  rw [mkCircle_rotation, if_pos]
  rw [norm3_vabs_zz2]
  norm_num

/-- The rotation built for the z-axis normal `(0,0,2)` (which skips the
degeneracy guard) has a zero first row, hence is not orthonormal. -/
lemma rotation_zz2_not_orthonormal :
    ¬ rowsOrthonormal (mkCircle ![0, 0, 0] ![(0:ℝ), 0, 2] 1 1).rotation := by
  rw [mkCircle_rotation_zz2]
  intro hOrth
  have h1 : circleU1 ![(0:ℝ), 0, 2] = fun _ => 0 :=
    circleU1_z_axis _ rfl rfl
  have h2 := congrFun (congrFun hOrth 0) 0
  rw [Matrix.mul_apply] at h2
  simp [circleRotation, h1, Matrix.one_apply, Fin.sum_univ_three,
    Matrix.transpose_apply] at h2

lemma d_pd_zero_radius (center n : Fin 3 → ℝ) (s gamma : ℝ) :
    d_pd (mkCircle center n 0 s) gamma = 0 := by
  simp only [d_pd, mkCircle_radius]
  have hv : ![-(0:ℝ) * 2 * Real.pi * Real.sin (gamma * 2 * Real.pi),
      0 * 2 * Real.pi * Real.cos (gamma * 2 * Real.pi), 0] = (0 : Fin 3 → ℝ) := by
    funext i
    fin_cases i <;> simp
  rw [hv, Matrix.mulVec_zero]

lemma vd_zero_radius (center n : Fin 3 → ℝ) (s gamma : ℝ) :
    vd (mkCircle center n 0 s) gamma = 0 := by
  have hd := d_pd_zero_radius center n s gamma
  simp only [vd, hd, norm3_zero, isfinite]
  simp

/-! ### Claims -/

/-- C1, counterexample to the claim as stated: for the circle with
`radius = 0` (center `(0,0,0)`, normal `(0,0,1)`, speed `2`), `vd 0` is not
the fallback value `1e-8`: the division is guarded by `derivative_norm != 0`,
so `vd` stays at its initial value `0`, which is finite. -/
theorem c1_counterexample :
    vd (mkCircle ![0, 0, 0] ![0, 0, 1] 0 2) 0 ≠ 0.00000001 := by
  rw [vd_zero_radius]
  norm_num

/-- C1 (amended): for a `Circle` constructed with `radius == 0` and a normal
yielding a NaN-free rotation (nonzero x or y component, or within the `1e-4`
degeneracy tolerance of the guard), `vd` returns exactly `0` for every
gamma: the path-velocity norm is exactly zero, so the guarded division is
skipped and the finite-fallback `1e-8` is never substituted (the initial
value `0` is finite).  Only for degenerate z-axis normals outside the
tolerance, whose rotation is NaN, does the C++ `!isfinite` fallback fire and
return `1e-8`; the hypothesis excludes those, since NaN has no counterpart
in this real embedding (see `isfinite`). -/
theorem c1_zero_radius_progress_rate (center n : Fin 3 → ℝ) (s gamma : ℝ)
    (_h : n 0 ≠ 0 ∨ n 1 ≠ 0 ∨ norm3 (vabs n - base_normal) ≤ 0.0001) :
    vd (mkCircle center n 0 s) gamma = 0 :=
  vd_zero_radius center n s gamma

/-- C1 witness: the circle of the counterexample input (normal `(0,0,1)`,
radius `0`, speed `2`) satisfies the NaN-free-rotation hypothesis and its
`vd` is `0` at `gamma = 0`. -/
theorem c1_witness :
    ((![(0:ℝ), 0, 1]) 0 ≠ 0 ∨ (![(0:ℝ), 0, 1]) 1 ≠ 0 ∨
      norm3 (vabs ![(0:ℝ), 0, 1] - base_normal) ≤ 0.0001) ∧
    vd (mkCircle ![0, 0, 0] ![0, 0, 1] 0 2) 0 = 0 := by
  have h : (![(0:ℝ), 0, 1]) 0 ≠ 0 ∨ (![(0:ℝ), 0, 1]) 1 ≠ 0 ∨
      norm3 (vabs ![(0:ℝ), 0, 1] - base_normal) ≤ 0.0001 := by
    right
    right
    rw [norm3_vabs_e3]
    norm_num
  exact ⟨h, c1_zero_radius_progress_rate ![0, 0, 0] ![0, 0, 1] 2 0 h⟩

/-- C2, counterexample to the claim as stated: the circle constructed with
the un-normalized z-axis normal `(0,0,2)` slips past the degeneracy guard and
its rotation matrix is not orthonormal (its first row is the junk
normalization of the zero cross product). -/
theorem c2_counterexample :
    ¬ rowsOrthonormal (mkCircle ![0, 0, 0] ![(0:ℝ), 0, 2] 1 1).rotation :=
  rotation_zz2_not_orthonormal

/-- C2 (amended): the rotation matrix of a constructed `Circle` is
orthonormal (its three rows are mutually orthogonal unit vectors, stated as
`m * mᵀ = 1`) whenever the caller-supplied normal has a nonzero x or y
component, or falls within the `1e-4` degeneracy tolerance of the guard
(where the rotation is the identity). -/
theorem c2_rotation_orthonormal (center n : Fin 3 → ℝ) (r s : ℝ)
    (h : n 0 ≠ 0 ∨ n 1 ≠ 0 ∨ norm3 (vabs n - base_normal) ≤ 0.0001) :
    rowsOrthonormal (mkCircle center n r s).rotation := by
  rw [mkCircle_rotation]
  split_ifs with hc
  · rcases h with h | h | h
    · exact circleRotation_orthonormal n (Or.inl h)
    · exact circleRotation_orthonormal n (Or.inr h)
    · exact absurd hc (not_lt.mpr h)
  · exact rowsOrthonormal_one

/-- C2 witness: the general-branch normal `(1,0,0)` of the spec's concrete
scenario 4 yields an orthonormal rotation. -/
theorem c2_witness :
    ((![(1:ℝ), 0, 0]) 0 ≠ 0 ∨ (![(1:ℝ), 0, 0]) 1 ≠ 0 ∨
      norm3 (vabs ![(1:ℝ), 0, 0] - base_normal) ≤ 0.0001) ∧
    rowsOrthonormal (mkCircle ![1, 2, 3] ![1, 0, 0] 5 2).rotation := by
  have h : (![(1:ℝ), 0, 0]) 0 ≠ 0 ∨ (![(1:ℝ), 0, 0]) 1 ≠ 0 ∨
      norm3 (vabs ![(1:ℝ), 0, 0] - base_normal) ≤ 0.0001 := by
    left
    norm_num
  exact ⟨h, c2_rotation_orthonormal ![1, 2, 3] ![1, 0, 0] 5 2 h⟩

/-- C3, counterexample to the claim as stated: with the (unvalidated)
negative radius `-1` and identity rotation, the distance from `pd 0` to the
center is `1 = |-1|`, not the stored radius `-1`. -/
theorem c3_counterexample :
    rowsOrthonormal (mkCircle ![0, 0, 0] ![0, 0, 1] (-1) 2).rotation ∧
    norm3 (pd (mkCircle ![0, 0, 0] ![0, 0, 1] (-1) 2) 0 - ![0, 0, 0])
      ≠ (mkCircle ![(0:ℝ), 0, 0] ![0, 0, 1] (-1) 2).radius := by
  have hOrth : rowsOrthonormal (mkCircle ![(0:ℝ), 0, 0] ![0, 0, 1] (-1) 2).rotation := by
    rw [mkCircle_rotation_e3]
    exact rowsOrthonormal_one
  refine ⟨hOrth, ?_⟩
  rw [pd_dist _ _ _ _ _ hOrth, mkCircle_radius]
  norm_num

/-- C3 (amended): for every gamma, when the rotation matrix is orthonormal,
the Euclidean distance from `pd gamma` to the center equals the absolute
value `|radius|` of the constructed radius (which is the radius itself only
when the radius is nonnegative). -/
theorem c3_pd_distance (center n : Fin 3 → ℝ) (r s gamma : ℝ)
    (h : rowsOrthonormal (mkCircle center n r s).rotation) :
    norm3 (pd (mkCircle center n r s) gamma - center) = |r| :=
  pd_dist center n r s gamma h

/-- C3 witness: the spec's concrete circle (center `(1,2,3)` is immaterial,
normal `(0,0,1)`, radius `5`) at `gamma = 0`. -/
theorem c3_witness :
    rowsOrthonormal (mkCircle ![1, 2, 3] ![0, 0, 1] 5 2).rotation ∧
    norm3 (pd (mkCircle ![1, 2, 3] ![0, 0, 1] 5 2) 0 - ![1, 2, 3]) = |(5:ℝ)| := by
  have hOrth : rowsOrthonormal (mkCircle ![(1:ℝ), 2, 3] ![0, 0, 1] 5 2).rotation := by
    rw [mkCircle_rotation_e3]
    exact rowsOrthonormal_one
  exact ⟨hOrth, c3_pd_distance ![1, 2, 3] ![0, 0, 1] 5 2 0 hOrth⟩

/-- C4: when the elementwise absolute value of the supplied normal is within
Euclidean distance `1e-4` of `(0,0,1)` (covering `(0,0,1)` and `(0,0,-1)`),
the constructor's guard fails and the rotation matrix is the identity. -/
theorem c4_degenerate_identity (center n : Fin 3 → ℝ) (r s : ℝ)
    (h : norm3 (vabs n - base_normal) ≤ 0.0001) :
    (mkCircle center n r s).rotation = 1 := by
  rw [mkCircle_rotation, if_neg (not_lt.mpr h)]

/-- C4 witness: the normal `(0,0,1)` itself. -/
theorem c4_witness :
    norm3 (vabs ![(0:ℝ), 0, 1] - base_normal) ≤ 0.0001 ∧
    (mkCircle ![0, 0, 0] ![(0:ℝ), 0, 1] 5 2).rotation = 1 := by
  have h : norm3 (vabs ![(0:ℝ), 0, 1] - base_normal) ≤ 0.0001 := by
    rw [norm3_vabs_e3]
    norm_num
  exact ⟨h, c4_degenerate_identity ![0, 0, 0] ![(0:ℝ), 0, 1] 5 2 h⟩

/-- C5: the progress-to-position mapping of every `Circle` is periodic with
period 1: `pd (gamma + 1) = pd gamma`. -/
theorem c5_pd_periodic (c : Circle) (gamma : ℝ) :
    pd c (gamma + 1) = pd c gamma := by
  simp only [pd]
  have harg : (gamma + 1) * 2 * Real.pi = gamma * 2 * Real.pi + 2 * Real.pi := by
    ring
  rw [harg, Real.cos_add_two_pi, Real.sin_add_two_pi]

/-- C6: for every `Circle` and every gamma, the second derivative is the
negative scalar multiple `-(2π)²` of the radial vector `pd gamma - center`
(so it points from the position toward the center whenever they differ). -/
theorem c6_acceleration_centripetal (c : Circle) (gamma : ℝ) :
    d2_pd c gamma = (-(2 * Real.pi) ^ 2) • (pd c gamma - c.center) ∧
    (-(2 * Real.pi) ^ 2 : ℝ) < 0 := by
  constructor
  · rw [pd_sub_center, ← Matrix.mulVec_smul]
    simp only [d2_pd]
    funext i
    fin_cases i <;> simp [Pi.smul_apply, smul_eq_mul] <;> ring
  · have h2 : (0:ℝ) < (2 * Real.pi) ^ 2 := by positivity
    linarith

/-- C7: for every constructed `Circle` (any normal, radius and speed) and
every gamma, the velocity `d_pd gamma` is orthogonal to the radial vector
`pd gamma - center`. -/
theorem c7_velocity_orthogonal (center n : Fin 3 → ℝ) (r s gamma : ℝ) :
    dot3 (d_pd (mkCircle center n r s) gamma)
      (pd (mkCircle center n r s) gamma - center) = 0 := by
  have hpd := pd_sub_center (mkCircle center n r s) gamma
  rw [mkCircle_center] at hpd
  rw [hpd]
  simp only [d_pd]
  refine mkCircle_dot_zero center n r s _ _ rfl rfl ?_
  rw [dot3_expand]
  simp only [Matrix.cons_val_zero, Matrix.cons_val_one, Matrix.head_cons,
    cons_val_last3]
  ring

/-- C8, counterexample to the claim as stated: with the (unvalidated)
negative radius `-1`, the velocity magnitude is `2π`, not `2π·(-1)`. -/
theorem c8_counterexample :
    ¬ (norm3 (d_pd (mkCircle ![0, 0, 0] ![0, 0, 1] (-1) 2) 0)
      = 2 * Real.pi * (mkCircle ![(0:ℝ), 0, 0] ![0, 0, 1] (-1) 2).radius) := by
  have hOrth : rowsOrthonormal (mkCircle ![(0:ℝ), 0, 0] ![0, 0, 1] (-1) 2).rotation := by
    rw [mkCircle_rotation_e3]
    exact rowsOrthonormal_one
  intro h
  rw [d_pd_norm _ _ _ _ _ hOrth, mkCircle_radius, abs_neg, abs_one] at h
  nlinarith [Real.pi_pos]

/-- C8 (amended): for every gamma, when the rotation matrix is orthonormal,
the Euclidean norm of the velocity `d_pd gamma` is the constant
`2π·|radius|` (which equals `2πr` only for nonnegative radii). -/
theorem c8_velocity_norm (center n : Fin 3 → ℝ) (r s gamma : ℝ)
    (h : rowsOrthonormal (mkCircle center n r s).rotation) :
    norm3 (d_pd (mkCircle center n r s) gamma) = 2 * Real.pi * |r| :=
  d_pd_norm center n r s gamma h

/-- C8 witness: the spec's concrete scenario 2 (radius `5`): velocity
magnitude `2π·5 = 10π` at `gamma = 0`. -/
theorem c8_witness :
    rowsOrthonormal (mkCircle ![0, 0, 0] ![0, 0, 1] 5 2).rotation ∧
    norm3 (d_pd (mkCircle ![0, 0, 0] ![0, 0, 1] 5 2) 0) = 2 * Real.pi * |(5:ℝ)| := by
  have hOrth : rowsOrthonormal (mkCircle ![(0:ℝ), 0, 0] ![0, 0, 1] 5 2).rotation := by
    rw [mkCircle_rotation_e3]
    exact rowsOrthonormal_one
  exact ⟨hOrth, c8_velocity_norm ![0, 0, 0] ![0, 0, 1] 5 2 0 hOrth⟩

/-- C9: for every constructed `Circle` and every gamma, the third derivative
equals the first derivative scaled by `-(2π)²`, and consequently the jerk is
orthogonal to the acceleration. -/
theorem c9_jerk_chain (center n : Fin 3 → ℝ) (r s gamma : ℝ) :
    d3_pd (mkCircle center n r s) gamma
      = (-(2 * Real.pi) ^ 2) • d_pd (mkCircle center n r s) gamma ∧
    dot3 (d3_pd (mkCircle center n r s) gamma)
      (d2_pd (mkCircle center n r s) gamma) = 0 := by
  constructor
  · simp only [d3_pd, d_pd]
    rw [← Matrix.mulVec_smul]
    funext i
    fin_cases i <;> simp [Pi.smul_apply, smul_eq_mul] <;> ring
  · simp only [d3_pd, d2_pd]
    refine mkCircle_dot_zero center n r s _ _ rfl rfl ?_
    rw [dot3_expand]
    simp only [Matrix.cons_val_zero, Matrix.cons_val_one, Matrix.head_cons,
      cons_val_last3]
    ring

/-- C10: the normal `(0,0,2)` is parallel to `(0,0,1)` but its elementwise
absolute value is at distance `1` from `(0,0,1)`, beyond the `1e-4`
tolerance, so the degeneracy check fails and the general branch runs; there
the cross product `u3 × (0,0,1)` it normalizes has norm zero (in C++ the
division yields NaN entries; in this real embedding the junk value is the
zero row), and the resulting rotation matrix is not orthonormal. -/
theorem c10_unnormalized_z_normal :
    norm3 (vabs ![(0:ℝ), 0, 2] - base_normal) > 0.0001 ∧
    norm3 (cross3 (circleU3 ![(0:ℝ), 0, 2]) base_normal) = 0 ∧
    (mkCircle ![0, 0, 0] ![(0:ℝ), 0, 2] 1 1).rotation = circleRotation ![0, 0, 2] ∧
    ¬ rowsOrthonormal (mkCircle ![0, 0, 0] ![(0:ℝ), 0, 2] 1 1).rotation := by
  refine ⟨?_, ?_, mkCircle_rotation_zz2 ![0, 0, 0] 1 1, rotation_zz2_not_orthonormal⟩
  · rw [norm3_vabs_zz2]
    norm_num
  · rw [cross3_u3_base_z_axis _ rfl rfl, norm3_zero_fun]

end autopilot
